import Mathlib

/-
Verification development for the LAS workflow execution engine
(las-v1/las_core/routers/workflows.py).

The engine is shallowly embedded: Python values become the inductive type
`Val`; Python dicts become insertion-ordered association lists with
Python update semantics (`dictInsert` keeps the original position of a
replaced key); Python exceptions become `Except String`; the external
agent / tool / reasoning capabilities (which live outside this module and
are called through service lookups) are an `Oracle` parameter.  Wall-clock
timestamps, uuids and the pydantic record ids are not part of the
executable model: `completed_at` is modelled as the Bool `completedAt`
("a timestamp was stamped"), and `started_at` / `execution_id` /
`workflow_id` are omitted.  Python floats are modelled as exact decimals
over decimal literals (no inf / nan / exponent forms), which is faithful
on the decimal operands the engine compares.
-/

set_option maxRecDepth 4000

/-- Python runtime values reachable from the engine: strings, ints,
bools, lists and string-keyed dicts. -/
inductive Val where
  | vstr : String → Val
  | vint : Int → Val
  | vbool : Bool → Val
  | vdict : List (String × Val) → Val
  | vlist : List Val → Val

/-- Insertion-ordered string-keyed association list standing in for a
Python dict. -/
abbrev AListD (α : Type) : Type := List (String × α)

/-- `d.get(k)`: first binding of `k`. -/
def dictGet {α : Type} : AListD α → String → Option α
  | [], _ => none
  | (k0, v0) :: rest, k => if k0 = k then some v0 else dictGet rest k

/-- `d.get(k, dflt)`. -/
def dictGetD {α : Type} (m : AListD α) (k : String) (dflt : α) : α :=
  (dictGet m k).getD dflt

/-- `d[k] = v`: replace in place, keeping the original position of the
key, else append (Python dict assignment semantics). -/
def dictInsert {α : Type} : AListD α → String → α → AListD α
  | [], k, v => [(k, v)]
  | (k0, v0) :: rest, k, v =>
    if k0 = k then (k0, v) :: rest else (k0, v0) :: dictInsert rest k v

/-- `m.update(patch)` / `{**m, **patch}`. -/
def dictUpdate {α : Type} (m patch : AListD α) : AListD α :=
  patch.foldl (fun acc p => dictInsert acc p.1 p.2) m

/-- The keys of a dict. -/
def dictKeys {α : Type} (m : AListD α) : List String := m.map Prod.fst

/-- A Python dict of values. -/
abbrev PyDict : Type := AListD Val

mutual
/-- Python `repr` of a value (quote style and key order as CPython
prints them; string escaping inside reprs is not modelled). -/
def pyRepr : Val → String
  | Val.vstr s => "\x27" ++ s ++ "\x27"
  | Val.vint n => toString n
  | Val.vbool b => if b then "True" else "False"
  | Val.vdict d => "\x7b" ++ String.intercalate ", " (pyReprEntries d) ++ "\x7d"
  | Val.vlist l => "[" ++ String.intercalate ", " (pyReprList l) ++ "]"

/-- Reprs of the entries of a dict. -/
def pyReprEntries : List (String × Val) → List String
  | [] => []
  | (k, v) :: rest => ("\x27" ++ k ++ "\x27: " ++ pyRepr v) :: pyReprEntries rest

/-- Reprs of the elements of a list. -/
def pyReprList : List Val → List String
  | [] => []
  | v :: rest => pyRepr v :: pyReprList rest
end

/-- Python `str` of a value. -/
def pyStr : Val → String
  | Val.vstr s => s
  | v => pyRepr v

/-- Python truthiness (`bool(v)`). -/
def Val.truthy : Val → Bool
  | Val.vstr s => !s.isEmpty
  | Val.vint n => n != 0
  | Val.vbool b => b
  | Val.vdict d => !d.isEmpty
  | Val.vlist l => !l.isEmpty

/-- `str.strip()`: drop leading and trailing whitespace. -/
def pyStripChars (cs : List Char) : List Char :=
  ((cs.dropWhile Char.isWhitespace).reverse.dropWhile Char.isWhitespace).reverse

/-- `str.lower()` (ASCII case folding via `Char.toLower`, implemented
over the character list so that it evaluates in the kernel). -/
def pyToLower (s : String) : String := List.asString (s.data.map Char.toLower)

/-- Membership in the strip set of `strip("\x27\x22")`. -/
def isQuoteChar (c : Char) : Bool := c = '\x27' || c = '\x22'

/-- `str.strip("\x27\x22")`: drop leading and trailing quote characters. -/
def stripQuotesChars (cs : List Char) : List Char :=
  ((cs.dropWhile isQuoteChar).reverse.dropWhile isQuoteChar).reverse

/-- Python `needle in haystack` on strings (substring test). -/
def containsSub (needle : List Char) : List Char → Bool
  | [] => needle.isEmpty
  | c :: rest => needle.isPrefixOf (c :: rest) || containsSub needle rest

/-- `s.split(sep, 1)`: split at the first occurrence of `sep` (callers
guard with `containsSub`; on a miss the whole input ends up on the
left). -/
def splitOnce (sep : List Char) : List Char → List Char × List Char
  | [] => ([], [])
  | c :: rest =>
    if sep.isPrefixOf (c :: rest) then ([], (c :: rest).drop sep.length)
    else
      let p := splitOnce sep rest
      (c :: p.1, p.2)

/-- `s.split(".")` (Python semantics: splitting the empty string yields
one empty field). -/
def splitDot : List Char → List (List Char)
  | [] => [[]]
  | c :: rest =>
    if c = '.' then [] :: splitDot rest
    else
      match splitDot rest with
      | [] => [[c]]
      | h :: t => (c :: h) :: t

/-- Digits to a natural number. -/
def digitsToNat (ds : List Char) : Nat :=
  ds.foldl (fun n c => n * 10 + (c.toNat - 48)) 0

/-- An exact decimal number `num / 10 ^ scale`, standing in for the
Python float a numeric comparison operand parses to. -/
structure PyFloat where
  num : Int
  scale : Nat

/-- Exact strict comparison of two decimals by cross-multiplication. -/
def PyFloat.blt (x y : PyFloat) : Bool :=
  decide (x.num * (10 : Int) ^ y.scale < y.num * (10 : Int) ^ x.scale)

/-- Python `float(s)` on the decimal-literal subset (optional sign,
digits, optional point): exact decimal result, `none` models the
ValueError raised on anything unparsable. -/
def pyFloat? (cs : List Char) : Option PyFloat :=
  let t := pyStripChars cs
  let sgn : Int × List Char :=
    match t with
    | '-' :: r => (-1, r)
    | '+' :: r => (1, r)
    | _ => (1, t)
  let intPart := sgn.2.takeWhile Char.isDigit
  let t2 := sgn.2.dropWhile Char.isDigit
  match t2 with
  | [] =>
    if intPart.isEmpty then none
    else some ⟨sgn.1 * (digitsToNat intPart : Int), 0⟩
  | '.' :: frac =>
    let fracD := frac.takeWhile Char.isDigit
    let rest := frac.dropWhile Char.isDigit
    if rest.isEmpty && !(intPart.isEmpty && fracD.isEmpty) then
      some ⟨sgn.1 * ((digitsToNat intPart : Int) * (10 : Int) ^ fracD.length +
        (digitsToNat fracD : Int)), fracD.length⟩
    else none
  | _ => none

/-- `float(v)` on a value already looked up from the variables dict. -/
def pyFloatOfVal : Val → Option PyFloat
  | Val.vstr s => pyFloat? s.data
  | Val.vint n => some ⟨n, 0⟩
  | Val.vbool b => some ⟨if b then 1 else 0, 0⟩
  | _ => none

/-- Path walk of `_substitute_variables.replace_var`: starting from the
merged lookup dict, follow dot-separated parts; a missing key defaults to
the empty string, a non-dict met while parts remain yields the empty
string. -/
def walkPath : Val → List String → Val
  | v, [] => v
  | Val.vdict d, p :: ps => walkPath (dictGetD d p (Val.vstr "")) ps
  | _, _ :: _ => Val.vstr ""

/-- Resolve one placeholder body: strip, split on dots, walk the merged
dict, stringify. -/
def resolveVar (allVars : PyDict) (content : List Char) : List Char :=
  (pyStr (walkPath (Val.vdict allVars)
    ((splitDot (pyStripChars content)).map List.asString))).data

/-- A dropWhile result is no longer than its input (termination measure
helper for the template scanner). -/
theorem length_dropWhile_le' {α : Type} (p : α → Bool) (l : List α) :
    (l.dropWhile p).length ≤ l.length := by
  induction l with
  | nil => simp [List.dropWhile]
  | cons a l ih =>
    by_cases h : p a
    · simp only [List.dropWhile, h]
      exact Nat.le_succ_of_le ih
    · simp [List.dropWhile, h]

/-- The scanner of `re.sub` over pattern `\x7b\x7b\s*([^\x7d]+)\s*\x7d\x7d`:
leftmost non-overlapping matches; a position where the pattern fails emits
one character and rescans from the next position.  The fuel argument (one
unit per consumed character, so the input length suffices) keeps the
recursion structural. -/
def substAuxF (allVars : PyDict) : Nat → List Char → List Char
  | _, [] => []
  | 0, cs => cs
  | fuel + 1, '\x7b' :: '\x7b' :: rest =>
    if (rest.takeWhile (fun c => c != '\x7d')).isEmpty then
      '\x7b' :: substAuxF allVars fuel ('\x7b' :: rest)
    else
      match rest.dropWhile (fun c => c != '\x7d') with
      | '\x7d' :: '\x7d' :: tail =>
        resolveVar allVars (rest.takeWhile (fun c => c != '\x7d')) ++
          substAuxF allVars fuel tail
      | _ => '\x7b' :: substAuxF allVars fuel ('\x7b' :: rest)
  | fuel + 1, c :: rest => c :: substAuxF allVars fuel rest

/-- The scanner at its exact fuel. -/
def substAux (allVars : PyDict) (cs : List Char) : List Char :=
  substAuxF allVars cs.length cs

/-- `_substitute_variables(text, state)`: merge `inputs` and `variables`
(the latter overriding), then replace each placeholder.  A non-dict under
either key makes the Python merge raise TypeError, modelled as the error
case. -/
def substituteVariables (text : String) (state : PyDict) : Except String String :=
  match dictGetD state "variables" (Val.vdict []), dictGetD state "inputs" (Val.vdict []) with
  | Val.vdict vars, Val.vdict ins =>
    Except.ok (List.asString (substAux (dictUpdate ins vars) text.data))
  | _, _ => Except.error "TypeError: mapping merge failed"

/-- External capability collaborators (agents, tools, reasoning backend).
These live outside this module (imported services); an `Oracle` closes the
engine over them.  Errors model the exceptions a capability may raise. -/
structure Oracle where
  agent : String → String → Except String Val
  tool : String → PyDict → Except String Val
  llm : Val → Val → Except String String

/-- `v == s` for a Python value against a string literal. -/
def opEq (v : Val) (s : String) : Bool :=
  match v with
  | Val.vstr t => t == s
  | _ => false

/-- Coerce to a dict or model the AttributeError / TypeError a dict
operation on a non-dict raises. -/
def asDict (v : Val) : Except String PyDict :=
  match v with
  | Val.vdict d => Except.ok d
  | _ => Except.error "AttributeError: not a mapping"

/-- Coerce to a string or model the TypeError of using a non-string
where `str` is required. -/
def asStr (v : Val) : Except String String :=
  match v with
  | Val.vstr s => Except.ok s
  | _ => Except.error "TypeError: expected string"

/-- Use a value as a dict key.  Python admits any hashable key; the
model encodes non-string hashables into a tagged string disjoint from
ordinary text keys, and unhashable keys raise. -/
def keyOf (v : Val) : Except String String :=
  match v with
  | Val.vstr s => Except.ok s
  | Val.vint n => Except.ok ("\x00int:" ++ toString n)
  | Val.vbool b => Except.ok ("\x00bool:" ++ toString b)
  | _ => Except.error "TypeError: unhashable type"

/-- Python iteration over a value (`for v in values`): lists yield
elements, strings yield characters, dicts yield keys, numbers raise. -/
def valIter (v : Val) : Except String (List Val) :=
  match v with
  | Val.vlist l => Except.ok l
  | Val.vstr s => Except.ok (s.data.map (fun c => Val.vstr (String.mk [c])))
  | Val.vdict d => Except.ok (d.map (fun p => Val.vstr p.1))
  | _ => Except.error "TypeError: not iterable"

/-- Syntactic condition evaluation of `_execute_decision_node` (the
non-delegated mode), applied to the already-substituted condition text:
the operators are tried in the fixed order `==`, `!=`, `in`, `>`, `<`,
with single-variable truthiness as the fallback; numeric operands go
through `float`, whose failure is the error case. -/
def evalConditionSyntactic (resolved : String) (varsD : PyDict) :
    Except String (PyDict × Option String) :=
  let rc := resolved.data
  let mkRes (b : Bool) : PyDict × Option String :=
    let label := if b then "yes" else "no"
    ([("decision", Val.vstr label), ("condition", Val.vstr resolved)], some label)
  if containsSub " == ".data rc then
    let p := splitOnce " == ".data rc
    let left := List.asString (pyStripChars p.1)
    let right := List.asString (stripQuotesChars (pyStripChars p.2))
    let leftVal := pyStr (dictGetD varsD left (Val.vstr left))
    Except.ok (mkRes (leftVal == right))
  else if containsSub " != ".data rc then
    let p := splitOnce " != ".data rc
    let left := List.asString (pyStripChars p.1)
    let right := List.asString (stripQuotesChars (pyStripChars p.2))
    let leftVal := pyStr (dictGetD varsD left (Val.vstr left))
    Except.ok (mkRes (leftVal != right))
  else if containsSub " in ".data rc then
    let p := splitOnce " in ".data rc
    let keyword := List.asString (stripQuotesChars (pyStripChars p.1))
    let varName := List.asString (pyStripChars p.2)
    let varVal := pyStr (dictGetD varsD varName (Val.vstr varName))
    Except.ok (mkRes (containsSub keyword.data varVal.data))
  else if containsSub " > ".data rc then
    let p := splitOnce " > ".data rc
    let leftName := List.asString (pyStripChars p.1)
    match pyFloatOfVal (dictGetD varsD leftName (Val.vstr leftName)) with
    | none => Except.error "ValueError: could not convert string to float"
    | some a =>
      match pyFloat? (pyStripChars p.2) with
      | none => Except.error "ValueError: could not convert string to float"
      | some b => Except.ok (mkRes (PyFloat.blt b a))
  else if containsSub " < ".data rc then
    let p := splitOnce " < ".data rc
    let leftName := List.asString (pyStripChars p.1)
    match pyFloatOfVal (dictGetD varsD leftName (Val.vstr leftName)) with
    | none => Except.error "ValueError: could not convert string to float"
    | some a =>
      match pyFloat? (pyStripChars p.2) with
      | none => Except.error "ValueError: could not convert string to float"
      | some b => Except.ok (mkRes (PyFloat.blt a b))
  else
    Except.ok (mkRes (dictGetD varsD resolved (Val.vbool false)).truthy)

/-- `_execute_decision_node`: delegated (LLM) mode hands the condition
and the serialized variable state to the reasoning capability and maps a
reply containing "yes" (case-insensitively, after stripping) to yes;
syntactic mode substitutes then evaluates.  Every failure is recovered
to the branch label "default" with the error recorded in the output. -/
def executeDecisionNode (o : Oracle) (data : PyDict) (state : PyDict) :
    Val × Option String :=
  let condition := dictGetD data "condition" (Val.vstr "")
  if (dictGetD data "use_llm" (Val.vbool false)).truthy then
    match o.llm condition (dictGetD state "variables" (Val.vdict [])) with
    | Except.ok reply =>
      if containsSub "yes".data (pyToLower (List.asString (pyStripChars reply.data))).data then
        (Val.vdict [("decision", Val.vstr "yes")], some "yes")
      else
        (Val.vdict [("decision", Val.vstr "no")], some "no")
    | Except.error e => (Val.vdict [("error", Val.vstr e)], some "default")
  else
    let attempt : Except String (PyDict × Option String) := do
      let condStr ← asStr condition
      let resolved ← substituteVariables condStr state
      let vars ← asDict (dictGetD state "variables" (Val.vdict []))
      evalConditionSyntactic resolved vars
    match attempt with
    | Except.ok r => (Val.vdict r.1, r.2)
    | Except.error e => (Val.vdict [("error", Val.vstr e)], some "default")

/-- `_execute_agent_node`: the prompt is fetched and substituted before
the guarded region, so a type or merge failure there propagates to the
run; a capability fault is caught and surfaced as the "error" key.  The
planner-specific message bookkeeping of external message objects is
abstracted into the oracle reply. -/
def executeAgentNode (o : Oracle) (data : PyDict) (state : PyDict) :
    Except String (Val × Option String) := do
  let agentType := dictGetD data "agent_type" (Val.vstr "planner")
  let promptRaw ← asStr (dictGetD data "prompt" (Val.vstr ""))
  let prompt ← substituteVariables promptRaw state
  match o.agent (pyStr agentType) prompt with
  | Except.ok v => pure (Val.vdict [("agent_response", v)], none)
  | Except.error e => pure (Val.vdict [("error", Val.vstr e)], none)

/-- `_execute_tool_node`: string-valued args are substituted (outside the
guarded region, so substitution failures propagate), others pass through;
a capability fault becomes the "error" key. -/
def executeToolNode (o : Oracle) (data : PyDict) (state : PyDict) :
    Except String (Val × Option String) := do
  let command := dictGetD data "command" (Val.vstr "")
  let args ← asDict (dictGetD data "args" (Val.vdict []))
  let resolved ← args.mapM (fun p =>
    match p.2 with
    | Val.vstr s => do
      let r ← substituteVariables s state
      pure (p.1, Val.vstr r)
    | v => pure (p.1, v))
  match o.tool (pyStr command) resolved with
  | Except.ok v => pure (Val.vdict [("tool_result", v)], none)
  | Except.error e => pure (Val.vdict [("error", Val.vstr e)], none)

/-- The guarded body of `_execute_transform_node`: the five operations,
each against `data.target`, plus the unknown-operation fallback that
stores the raw value. -/
def transformBody (data : PyDict) (state : PyDict) : Except String PyDict := do
  let operation := dictGetD data "operation" (Val.vstr "set")
  let target := dictGetD data "target" (Val.vstr "result")
  let value := dictGetD data "value" (Val.vstr "")
  let sourceKey := dictGetD data "source" (Val.vstr "")
  let varsV := dictGetD state "variables" (Val.vdict [])
  if opEq operation "set" then do
    let resolved ← substituteVariables (pyStr value) state
    let tk ← keyOf target
    pure [(tk, Val.vstr resolved)]
  else if opEq operation "append" then do
    let tk ← keyOf target
    let vars ← asDict varsV
    let existing := dictGetD vars tk (Val.vlist [])
    let existingList :=
      match existing with
      | Val.vlist l => l
      | v => if v.truthy then [v] else []
    let resolved ← substituteVariables (pyStr value) state
    pure [(tk, Val.vlist (existingList ++ [Val.vstr resolved]))]
  else if opEq operation "extract" then do
    let sk ← keyOf sourceKey
    let vars ← asDict varsV
    let sourceVal := dictGetD vars sk (Val.vdict [])
    let tk ← keyOf target
    match sourceVal with
    | Val.vdict d => do
      let fk ← keyOf (dictGetD data "field" (Val.vstr ""))
      pure [(tk, dictGetD d fk (Val.vstr ""))]
    | _ => pure [(tk, Val.vstr "")]
  else if opEq operation "template" then do
    let tmpl ← asStr (dictGetD data "template" (Val.vstr ""))
    let resolved ← substituteVariables tmpl state
    let tk ← keyOf target
    pure [(tk, Val.vstr resolved)]
  else if opEq operation "concat" then do
    let values ← valIter (dictGetD data "values" (Val.vlist []))
    let resolvedValues ← values.mapM (fun v => substituteVariables (pyStr v) state)
    let sep ← asStr (dictGetD data "separator" (Val.vstr " "))
    let tk ← keyOf target
    pure [(tk, Val.vstr (String.intercalate sep resolvedValues))]
  else do
    let tk ← keyOf target
    pure [(tk, value)]

/-- `_execute_transform_node`: every internal failure is recovered as an
"error" output, never an exception. -/
def executeTransformNode (data : PyDict) (state : PyDict) : Val × Option String :=
  match transformBody data state with
  | Except.ok patch => (Val.vdict patch, none)
  | Except.error e => (Val.vdict [("error", Val.vstr e)], none)

/-- The delay node: `asyncio.sleep(data.seconds)` needs a number (the
suspension itself is not modelled); a non-numeric value raises. -/
def executeDelayNode (data : PyDict) : Except String (Val × Option String) :=
  match dictGetD data "seconds" (Val.vint 1) with
  | Val.vint n => Except.ok (Val.vdict [("delayed", Val.vint n)], none)
  | Val.vbool b => Except.ok (Val.vdict [("delayed", Val.vbool b)], none)
  | _ => Except.error "TypeError: seconds must be a number"

/-- A workflow node (`position` is layout metadata irrelevant to
execution and omitted). -/
structure WorkflowNode where
  id : String
  type : String
  data : PyDict

/-- A workflow edge; the optional label drives branch selection. -/
structure WorkflowEdge where
  id : String
  source : String
  target : String
  label : Option String
deriving DecidableEq

/-- A workflow definition (record metadata irrelevant to execution is
omitted). -/
structure Workflow where
  name : String
  nodes : List WorkflowNode
  edges : List WorkflowEdge

/-- `_execute_node`: dispatch purely on the node type string; unknown
types return an empty patch and no label. -/
def executeNode (o : Oracle) (node : WorkflowNode) (state : PyDict) :
    Except String (Val × Option String) :=
  if node.type = "start" then
    Except.ok (dictGetD state "inputs" (Val.vdict []), none)
  else if node.type = "end" then do
    let okey ← keyOf (dictGetD node.data "output_key" (Val.vstr "result"))
    pure (Val.vdict [(okey, dictGetD state "variables" (Val.vdict []))], none)
  else if node.type = "agent" then
    executeAgentNode o node.data state
  else if node.type = "tool" then
    executeToolNode o node.data state
  else if node.type = "decision" then
    Except.ok (executeDecisionNode o node.data state)
  else if node.type = "transform" then
    Except.ok (executeTransformNode node.data state)
  else if node.type = "delay" then
    executeDelayNode node.data
  else
    Except.ok (Val.vdict [], none)

/-- Execution status enum of the source. -/
inductive ExecutionStatus where
  | pending
  | running
  | completed
  | failed
  | cancelled
deriving DecidableEq

/-- `\x7bnode.id: node for node in workflow.nodes\x7d`: duplicates keep
the first position with the later node. -/
def buildNodesMap (ns : List WorkflowNode) : AListD WorkflowNode :=
  ns.foldl (fun m n => dictInsert m n.id n) []

/-- `_find_start_node`: the first node of type start in insertion
order, if any. -/
def findStartNode (nm : AListD WorkflowNode) : Option WorkflowNode :=
  (nm.find? (fun p => p.2.type == "start")).map (fun p => p.2)

/-- `edges_from[current_id]`: outgoing edges in declaration order. -/
def edgesFromList (edges : List WorkflowEdge) (src : String) : List WorkflowEdge :=
  edges.filter (fun e => e.source == src)

/-- Does this edge carry a truthy label case-insensitively equal to `l`
(`edge.label and edge.label.lower() == l.lower()`)? -/
def edgeLabelMatches (l : String) (e : WorkflowEdge) : Bool :=
  match e.label with
  | some el => !el.isEmpty && pyToLower el == pyToLower l
  | none => false

/-- `_find_next_node`: with a truthy branch label, the first
case-insensitive label match, else the first edge labelled "default",
else the first declared edge; with no (or an empty) label, directly the
first declared edge; no outgoing edge at all yields none. -/
def findNextNode (edges : List WorkflowEdge) (label : Option String) : Option String :=
  match edges with
  | [] => none
  | e0 :: _ =>
    match label with
    | some l =>
      if l.isEmpty then some e0.target
      else
        match edges.find? (edgeLabelMatches l) with
        | some e => some e.target
        | none =>
          match edges.find? (edgeLabelMatches "default") with
          | some e => some e.target
          | none => some e0.target
    | none => some e0.target

/-- The accumulating per-run data: the threaded execution state dict, the
visited set, and the mutated fields of the ExecutionRecord, plus a ghost
`trace` listing dispatched node ids in order (pure instrumentation; the
source only keeps the keyed `node_results`). -/
structure RunAcc where
  state : PyDict
  visited : List String
  currentNode : Option String
  outputs : PyDict
  nodeResults : PyDict
  trace : List String

/-- `visited.add(cid)`. -/
def insertVisited (cid : String) (v : List String) : List String :=
  if cid ∈ v then v else cid :: v

/-- Lines 158-161 of the source: a mapping-typed node output is merged
into `state["variables"]` and then into the top level of `state`; a
non-mapping output leaves the state untouched.  A previously overwritten
non-dict under "variables" makes the inner update raise. -/
def mergeOutput (state : PyDict) (output : Val) : Except String PyDict :=
  match output with
  | Val.vdict patch =>
    match dictGet state "variables" with
    | some (Val.vdict vars) =>
      Except.ok (dictUpdate (dictInsert state "variables" (Val.vdict (dictUpdate vars patch))) patch)
    | some _ => Except.error "AttributeError: update on non-dict variables"
    | none => Except.error "KeyError: variables"
  | _ => Except.ok state

/-- Outcome of one loop iteration: halt (normally or with the modelled
exception) or continue at the next node id. -/
inductive StepOut where
  | halt : Option String → StepOut
  | next : Option String → StepOut

/-- The traversal loop body after the cycle guard (source lines
145-172): visited marking, node lookup, dispatch, node-result recording,
state merge, end-node short circuit, next-node selection. -/
def stepAfterGuard (o : Oracle) (nm : AListD WorkflowNode) (edges : List WorkflowEdge)
    (cid : String) (acc : RunAcc) : RunAcc × StepOut :=
  let acc1 := { acc with visited := insertVisited cid acc.visited }
  match dictGet nm cid with
  | none => (acc1, StepOut.halt (some ("Node " ++ cid ++ " not found")))
  | some node =>
    let acc2 := { acc1 with currentNode := some cid }
    match executeNode o node acc2.state with
    | Except.error e => (acc2, StepOut.halt (some e))
    | Except.ok out =>
      let acc3 := { acc2 with
        nodeResults := dictInsert acc2.nodeResults cid out.1
        trace := acc2.trace ++ [cid] }
      match mergeOutput acc3.state out.1 with
      | Except.error e => (acc3, StepOut.halt (some e))
      | Except.ok st =>
        let acc4 := { acc3 with state := st }
        if node.type = "end" then
          ({ acc4 with outputs :=
              [("final", out.1), ("state", dictGetD st "variables" (Val.vdict []))] },
           StepOut.halt none)
        else
          (acc4, StepOut.next (findNextNode (edgesFromList edges cid) out.2))

/-- One iteration of the traversal loop body, starting at the cycle
guard (source line 142): a revisited non-decision node halts the loop as
a success exit; decision nodes fall through to dispatch. -/
def stepNode (o : Oracle) (nm : AListD WorkflowNode) (edges : List WorkflowEdge)
    (cid : String) (acc : RunAcc) : RunAcc × StepOut :=
  if cid ∈ acc.visited then
    match dictGet nm cid with
    | none => (acc, StepOut.halt (some ("KeyError: " ++ cid)))
    | some n =>
      if n.type = "decision" then stepAfterGuard o nm edges cid acc
      else (acc, StepOut.halt none)
  else stepAfterGuard o nm edges cid acc

/-- The traversal loop (`while current_node_id and iteration < max_iterations`),
with the remaining iteration budget as fuel (initially 100). -/
def loopRun (o : Oracle) (nm : AListD WorkflowNode) (edges : List WorkflowEdge) :
    Nat → Option String → RunAcc → RunAcc × Option String
  | 0, _, acc => (acc, none)
  | _ + 1, none, acc => (acc, none)
  | fuel + 1, some cid, acc =>
    match stepNode o nm edges cid acc with
    | (acc1, StepOut.halt e) => (acc1, e)
    | (acc1, StepOut.next cur) => loopRun o nm edges fuel cur acc1

/-- The initial execution state
`\x7b"inputs": inputs, "messages": [], "variables": \x7b\x7d, **inputs\x7d`:
the invocation inputs are spread into the top level and can shadow the
three seeded fields. -/
def initState (inputs : PyDict) : PyDict :=
  dictUpdate
    [("inputs", Val.vdict inputs), ("messages", Val.vlist []), ("variables", Val.vdict [])]
    inputs

/-- The guarded body of `execute` (source lines 111-172): build lookup
maps, find the start node, seed state, run the loop with the hard cap of
100 iterations.  The second component is the modelled exception, if
any. -/
def executeBody (o : Oracle) (w : Workflow) (inputs : PyDict) : RunAcc × Option String :=
  let nm := buildNodesMap w.nodes
  let acc0 : RunAcc :=
    { state := [], visited := [], currentNode := none,
      outputs := [("inputs", Val.vdict inputs)], nodeResults := [], trace := [] }
  match findStartNode nm with
  | none => (acc0, some "Workflow must have a \x27start\x27 node")
  | some start =>
    loopRun o nm w.edges 100 (some start.id) { acc0 with state := initState inputs }

/-- The modelled ExecutionRecord fields `execute` mutates (`completedAt`
is the presence of the terminal timestamp; `trace` is the ghost dispatch
order). -/
structure ExecutionResult where
  status : ExecutionStatus
  completedAt : Bool
  currentNode : Option String
  outputs : PyDict
  errors : List String
  nodeResults : PyDict
  trace : List String

/-- `WorkflowExecutionEngine.execute`: the whole body is guarded; a
normal exit is Completed, any modelled exception yields Failed with the
message appended to `errors`; both terminal transitions stamp
`completed_at`. -/
def execute (o : Oracle) (w : Workflow) (inputs : PyDict) : ExecutionResult :=
  let r := executeBody o w inputs
  match r.2 with
  | none =>
    { status := ExecutionStatus.completed, completedAt := true,
      currentNode := r.1.currentNode, outputs := r.1.outputs, errors := [],
      nodeResults := r.1.nodeResults, trace := r.1.trace }
  | some e =>
    { status := ExecutionStatus.failed, completedAt := true,
      currentNode := r.1.currentNode, outputs := r.1.outputs, errors := [e],
      nodeResults := r.1.nodeResults, trace := r.1.trace }

theorem dictGet_dictInsert {α : Type} (m : List (String × α)) (k k' : String) (v : α) :
    dictGet (dictInsert m k v) k' = if k = k' then some v else dictGet m k' := by
  induction m with
  | nil =>
    by_cases h : k = k' <;> simp [dictInsert, dictGet, h]
  | cons p rest ih =>
    obtain ⟨k0, v0⟩ := p
    by_cases h0 : k0 = k
    · subst h0
      by_cases h : k0 = k' <;> simp [dictInsert, dictGet, h]
    · by_cases h : k0 = k'
      · subst h
        have hne : ¬ k = k0 := fun hh => h0 hh.symm
        simp [dictInsert, dictGet, h0, hne]
      · simp [dictInsert, dictGet, h0, h, ih]

theorem dictGet_eq_none_of_not_mem {α : Type} (m : List (String × α)) (k : String)
    (h : k ∉ dictKeys m) : dictGet m k = none := by
  induction m with
  | nil => rfl
  | cons p rest ih =>
    obtain ⟨k0, v0⟩ := p
    simp only [dictKeys, List.map_cons, List.mem_cons] at h
    push_neg at h
    have h1 : k0 ≠ k := fun hh => h.1 hh.symm
    simp only [dictGet, if_neg h1]
    exact ih (by simpa [dictKeys] using h.2)

theorem not_mem_dictKeys_of_dictGet_none {α : Type} (m : List (String × α)) (k : String)
    (h : dictGet m k = none) : k ∉ dictKeys m := by
  induction m with
  | nil => simp [dictKeys]
  | cons p rest ih =>
    obtain ⟨k0, v0⟩ := p
    by_cases h0 : k0 = k
    · simp [dictGet, h0] at h
    · simp only [dictGet, if_neg h0] at h
      simp only [dictKeys, List.map_cons, List.mem_cons]
      push_neg
      exact ⟨fun hh => h0 hh.symm, by simpa [dictKeys] using ih h⟩

theorem dictGet_dictUpdate_not_mem {α : Type} (m patch : List (String × α)) (k : String)
    (h : k ∉ dictKeys patch) : dictGet (dictUpdate m patch) k = dictGet m k := by
  induction patch generalizing m with
  | nil => rfl
  | cons p rest ih =>
    obtain ⟨k0, v0⟩ := p
    simp only [dictKeys, List.map_cons, List.mem_cons] at h
    push_neg at h
    have step : dictUpdate m ((k0, v0) :: rest) = dictUpdate (dictInsert m k0 v0) rest := rfl
    rw [step, ih (dictInsert m k0 v0) (by simpa [dictKeys] using h.2),
      dictGet_dictInsert, if_neg (fun hh => h.1 hh.symm)]

theorem dictGet_dictUpdate_mem {α : Type} (m patch : List (String × α)) (k : String) (v : α)
    (hnd : (dictKeys patch).Nodup) (h : dictGet patch k = some v) :
    dictGet (dictUpdate m patch) k = some v := by
  induction patch generalizing m with
  | nil => simp [dictGet] at h
  | cons p rest ih =>
    obtain ⟨k0, v0⟩ := p
    have step : dictUpdate m ((k0, v0) :: rest) = dictUpdate (dictInsert m k0 v0) rest := rfl
    simp only [dictKeys, List.map_cons, List.nodup_cons] at hnd
    by_cases h0 : k0 = k
    · subst h0
      have hv : v0 = v := by simpa [dictGet] using h
      subst hv
      rw [step, dictGet_dictUpdate_not_mem _ _ _ (by simpa [dictKeys] using hnd.1),
        dictGet_dictInsert, if_pos rfl]
    · simp only [dictGet, if_neg h0] at h
      rw [step]
      exact ih _ (by simpa [dictKeys] using hnd.2) h

theorem mem_dictInsert {α : Type} (m : List (String × α)) (k : String) (v : α) (p : String × α)
    (h : p ∈ dictInsert m k v) : p ∈ m ∨ p = (k, v) := by
  induction m with
  | nil => simpa [dictInsert] using h
  | cons q rest ih =>
    obtain ⟨k0, v0⟩ := q
    by_cases h0 : k0 = k
    · simp only [dictInsert, if_pos h0, List.mem_cons] at h
      rcases h with h | h
      · right; rw [h, h0]
      · left; exact List.mem_cons_of_mem _ h
    · simp only [dictInsert, if_neg h0, List.mem_cons] at h
      rcases h with h | h
      · left; exact h ▸ List.mem_cons_self _ _
      · rcases ih h with h | h
        · left; exact List.mem_cons_of_mem _ h
        · right; exact h

theorem mem_buildNodesMap (ns : List WorkflowNode) (p : String × WorkflowNode)
    (h : p ∈ buildNodesMap ns) : p.2 ∈ ns := by
  suffices step : ∀ (l : List WorkflowNode) (m : List (String × WorkflowNode)),
      p ∈ l.foldl (fun m n => dictInsert m n.id n) m → p.2 ∈ l ∨ p ∈ m by
    rcases step ns [] h with h1 | h1
    · exact h1
    · simp at h1
  intro l
  induction l with
  | nil => intro m hm; right; exact hm
  | cons n rest ih =>
    intro m hm
    simp only [List.foldl_cons] at hm
    rcases ih (dictInsert m n.id n) hm with h1 | h1
    · left; exact List.mem_cons_of_mem _ h1
    · rcases mem_dictInsert _ _ _ _ h1 with h2 | h2
      · right; exact h2
      · left
        have hp : p.2 = n := by rw [h2]
        rw [hp]
        exact List.mem_cons_self _ _

theorem dictGet_mem {α : Type} (m : List (String × α)) (k : String) (v : α)
    (h : dictGet m k = some v) : (k, v) ∈ m := by
  induction m with
  | nil => simp [dictGet] at h
  | cons p rest ih =>
    obtain ⟨k0, v0⟩ := p
    by_cases h0 : k0 = k
    · subst h0
      have hv : v0 = v := by simpa [dictGet] using h
      subst hv
      exact List.mem_cons_self _ _
    · simp only [dictGet, if_neg h0] at h
      exact List.mem_cons_of_mem _ (ih h)

theorem mem_insertVisited (cid id : String) (v : List String) :
    id ∈ insertVisited cid v ↔ id = cid ∨ id ∈ v := by
  by_cases h : cid ∈ v
  · simp only [insertVisited, if_pos h]
    constructor
    · intro hh; right; exact hh
    · intro hh
      rcases hh with hh | hh
      · rw [hh]; exact h
      · exact hh
  · simp [insertVisited, if_neg h]

theorem stepAfterGuard_spec (o : Oracle) (nm : AListD WorkflowNode)
    (edges : List WorkflowEdge) (cid : String) (acc : RunAcc) :
    (stepAfterGuard o nm edges cid acc).1.visited = insertVisited cid acc.visited ∧
    ((stepAfterGuard o nm edges cid acc).1.trace = acc.trace ∨
     (stepAfterGuard o nm edges cid acc).1.trace = acc.trace ++ [cid]) := by
  unfold stepAfterGuard
  dsimp only
  split
  · exact ⟨rfl, Or.inl rfl⟩
  · split
    · exact ⟨rfl, Or.inl rfl⟩
    · split
      · exact ⟨rfl, Or.inr rfl⟩
      · split
        · exact ⟨rfl, Or.inr rfl⟩
        · exact ⟨rfl, Or.inr rfl⟩

theorem stepNode_spec (o : Oracle) (nm : AListD WorkflowNode)
    (edges : List WorkflowEdge) (cid : String) (acc : RunAcc) :
    ((stepNode o nm edges cid acc).1.trace = acc.trace ∧
     (stepNode o nm edges cid acc).1.visited = acc.visited) ∨
    ((stepNode o nm edges cid acc).1.visited = insertVisited cid acc.visited ∧
     ((stepNode o nm edges cid acc).1.trace = acc.trace ∨
      ((stepNode o nm edges cid acc).1.trace = acc.trace ++ [cid] ∧
       (cid ∉ acc.visited ∨ ∃ n, dictGet nm cid = some n ∧ n.type = "decision")))) := by
  unfold stepNode
  split
  · rename_i hmem
    split
    · left; exact ⟨rfl, rfl⟩
    · rename_i n hget
      split
      · rename_i hdec
        rcases stepAfterGuard_spec o nm edges cid acc with ⟨hv, ht⟩
        right
        refine ⟨hv, ?_⟩
        rcases ht with ht | ht
        · left; exact ht
        · right; exact ⟨ht, Or.inr ⟨n, hget, hdec⟩⟩
      · left; exact ⟨rfl, rfl⟩
  · rename_i hmem
    rcases stepAfterGuard_spec o nm edges cid acc with ⟨hv, ht⟩
    right
    refine ⟨hv, ?_⟩
    rcases ht with ht | ht
    · left; exact ht
    · right; exact ⟨ht, Or.inl hmem⟩

/-- Invariant threaded through the loop: every dispatched node id has
been marked visited, and a node whose type is not decision is dispatched
at most once. -/
def TraceInv (nm : AListD WorkflowNode) (acc : RunAcc) : Prop :=
  (∀ id, id ∈ acc.trace → id ∈ acc.visited) ∧
  (∀ id n, dictGet nm id = some n → n.type ≠ "decision" → acc.trace.count id ≤ 1)

theorem stepNode_traceInv (o : Oracle) (nm : AListD WorkflowNode)
    (edges : List WorkflowEdge) (cid : String) (acc : RunAcc)
    (h : TraceInv nm acc) : TraceInv nm (stepNode o nm edges cid acc).1 := by
  rcases stepNode_spec o nm edges cid acc with ⟨ht, hv⟩ | ⟨hv, ht⟩
  · constructor
    · intro id hid
      rw [ht] at hid
      rw [hv]
      exact h.1 id hid
    · intro id n hget hnd
      rw [ht]
      exact h.2 id n hget hnd
  · rcases ht with ht | ⟨ht, hcond⟩
    · constructor
      · intro id hid
        rw [ht] at hid
        rw [hv]
        exact (mem_insertVisited cid id acc.visited).mpr (Or.inr (h.1 id hid))
      · intro id n hget hnd
        rw [ht]
        exact h.2 id n hget hnd
    · constructor
      · intro id hid
        rw [ht, List.mem_append] at hid
        rw [hv]
        rcases hid with hid | hid
        · exact (mem_insertVisited cid id acc.visited).mpr (Or.inr (h.1 id hid))
        · simp only [List.mem_singleton] at hid
          exact (mem_insertVisited cid id acc.visited).mpr (Or.inl hid)
      · intro id n hget hnd
        rw [ht, List.count_append]
        by_cases hic : id = cid
        · subst hic
          have hnm : id ∉ acc.visited := by
            rcases hcond with hc | ⟨n2, hget2, hdec2⟩
            · exact hc
            · rw [hget] at hget2
              exact absurd (by injection hget2 with hh; rw [hh]; exact hdec2) hnd
          have hnt : id ∉ acc.trace := fun hh => hnm (h.1 id hh)
          have hz : acc.trace.count id = 0 := List.count_eq_zero.mpr hnt
          simp [hz, List.count_singleton]
        · have hz : List.count id [cid] = 0 := by
            apply List.count_eq_zero.mpr
            simp [hic]
          rw [hz]
          simpa using h.2 id n hget hnd

theorem loopRun_traceInv (o : Oracle) (nm : AListD WorkflowNode) (edges : List WorkflowEdge) :
    ∀ (fuel : Nat) (cur : Option String) (acc : RunAcc),
    TraceInv nm acc → TraceInv nm (loopRun o nm edges fuel cur acc).1 := by
  intro fuel
  induction fuel with
  | zero => intro cur acc h; exact h
  | succ f ih =>
    intro cur acc h
    cases cur with
    | none => exact h
    | some cid =>
      have hstep := stepNode_traceInv o nm edges cid acc h
      unfold loopRun
      cases hs : stepNode o nm edges cid acc with
      | mk acc1 out =>
        cases out with
        | halt e =>
          dsimp only
          rw [hs] at hstep
          exact hstep
        | next cur1 =>
          dsimp only
          rw [hs] at hstep
          exact ih cur1 acc1 hstep

theorem stepNode_trace_len (o : Oracle) (nm : AListD WorkflowNode)
    (edges : List WorkflowEdge) (cid : String) (acc : RunAcc) :
    (stepNode o nm edges cid acc).1.trace.length ≤ acc.trace.length + 1 := by
  rcases stepNode_spec o nm edges cid acc with ⟨ht, _⟩ | ⟨_, ht⟩
  · rw [ht]; omega
  · rcases ht with ht | ⟨ht, _⟩
    · rw [ht]; omega
    · rw [ht]; simp

theorem loopRun_trace_len (o : Oracle) (nm : AListD WorkflowNode) (edges : List WorkflowEdge) :
    ∀ (fuel : Nat) (cur : Option String) (acc : RunAcc),
    (loopRun o nm edges fuel cur acc).1.trace.length ≤ acc.trace.length + fuel := by
  intro fuel
  induction fuel with
  | zero => intro cur acc; simp [loopRun]
  | succ f ih =>
    intro cur acc
    cases cur with
    | none => simp [loopRun]
    | some cid =>
      have hlen := stepNode_trace_len o nm edges cid acc
      unfold loopRun
      cases hs : stepNode o nm edges cid acc with
      | mk acc1 out =>
        rw [hs] at hlen
        have hlen1 : acc1.trace.length ≤ acc.trace.length + 1 := hlen
        cases out with
        | halt e => dsimp only; omega
        | next cur1 =>
          dsimp only
          have := ih cur1 acc1
          omega

theorem execute_trace_eq (o : Oracle) (w : Workflow) (inputs : PyDict) :
    (execute o w inputs).trace = (executeBody o w inputs).1.trace := by
  unfold execute
  dsimp only
  split <;> rfl

theorem execute_completedAt (o : Oracle) (w : Workflow) (inputs : PyDict) :
    (execute o w inputs).completedAt = true := by
  unfold execute
  dsimp only
  split <;> rfl

theorem execute_status_of_ok (o : Oracle) (w : Workflow) (inputs : PyDict)
    (h : (executeBody o w inputs).2 = none) :
    (execute o w inputs).status = ExecutionStatus.completed := by
  unfold execute
  dsimp only
  split
  · rfl
  · rename_i e he
    rw [h] at he
    cases he

theorem execute_status_of_error (o : Oracle) (w : Workflow) (inputs : PyDict) (e : String)
    (h : (executeBody o w inputs).2 = some e) :
    (execute o w inputs).status = ExecutionStatus.failed ∧
    (execute o w inputs).errors = [e] := by
  unfold execute
  dsimp only
  split
  · rename_i he
    rw [h] at he
    cases he
  · rename_i e2 he
    rw [h] at he
    injection he with he2
    rw [he2]
    exact ⟨rfl, rfl⟩

theorem executeBody_trace_bound (o : Oracle) (w : Workflow) (inputs : PyDict) :
    (executeBody o w inputs).1.trace.length ≤ 100 := by
  unfold executeBody
  dsimp only
  split
  · simp
  · exact loopRun_trace_len o (buildNodesMap w.nodes) w.edges 100 _ _

theorem executeBody_traceInv (o : Oracle) (w : Workflow) (inputs : PyDict) :
    TraceInv (buildNodesMap w.nodes) (executeBody o w inputs).1 := by
  have hinv : ∀ (st : PyDict) (op : PyDict) (cn : Option String),
      TraceInv (buildNodesMap w.nodes)
        { state := st, visited := [], currentNode := cn, outputs := op,
          nodeResults := [], trace := [] } := by
    intro st op cn
    constructor
    · intro id hid
      simp at hid
    · intro id n _ _
      simp [List.count_nil]
  unfold executeBody
  dsimp only
  split
  · exact hinv _ _ _
  · exact loopRun_traceInv o (buildNodesMap w.nodes) w.edges 100 _ _ (hinv _ _ _)

/-- An oracle with every external capability unavailable (each call
fails, exercising the engine's local fault recovery). -/
def trivialOracle : Oracle :=
  { agent := fun _ _ => Except.error "agent capability unavailable",
    tool := fun _ _ => Except.error "tool capability unavailable",
    llm := fun _ _ => Except.error "reasoning capability unavailable" }

/-- A start node fixture. -/
def startNode (i : String) : WorkflowNode := { id := i, type := "start", data := [] }

/-- An end node fixture. -/
def endNode (i : String) : WorkflowNode :=
  { id := i, type := "end", data := [("output_key", Val.vstr "result")] }

/-- A transform node fixture (`set target value`). -/
def setNode (i tgt v : String) : WorkflowNode :=
  { id := i, type := "transform",
    data := [("operation", Val.vstr "set"), ("target", Val.vstr tgt), ("value", Val.vstr v)] }

/-- An edge fixture. -/
def mkEdge (i s t : String) (l : Option String) : WorkflowEdge :=
  { id := i, source := s, target := t, label := l }

/-- A decision node that always evaluates its (empty, falsy) condition
to the label "no". -/
def decSelfNode : WorkflowNode :=
  { id := "d", type := "decision", data := [("condition", Val.vstr "")] }

/-- A workflow whose decision node branches back to itself via its
"yes" and "no" edges (its falsy condition always selects "no"). -/
def wfDecisionLoop : Workflow :=
  { name := "decision-loop",
    nodes := [startNode "s", decSelfNode],
    edges := [mkEdge "e1" "s" "d" none, mkEdge "e2" "d" "d" (some "yes"),
      mkEdge "e3" "d" "d" (some "no")] }

/-- A workflow with a start, an end and a dangling edge between two node
ids that do not exist. -/
def wfDanglingUnreached : Workflow :=
  { name := "dangling-unreached",
    nodes := [startNode "s", endNode "e"],
    edges := [mkEdge "e1" "s" "e" none, mkEdge "e2" "ghost" "nowhere" none] }

/-- A workflow with a start, an end and a second, never-chosen outgoing
edge of the start whose target does not exist. -/
def wfDanglingSecond : Workflow :=
  { name := "dangling-second",
    nodes := [startNode "s", endNode "e"],
    edges := [mkEdge "e1" "s" "e" none, mkEdge "e2" "s" "nowhere" none] }

/-- A workflow whose start points at a node id that does not exist. -/
def wfDanglingReached : Workflow :=
  { name := "dangling-reached",
    nodes := [startNode "s"],
    edges := [mkEdge "e1" "s" "missing" none] }

/-- A cycle of two transform nodes (no decision node). -/
def wfTransformLoop : Workflow :=
  { name := "transform-loop",
    nodes := [startNode "s", setNode "t1" "a" "1", setNode "t2" "b" "2"],
    edges := [mkEdge "e1" "s" "t1" none, mkEdge "e2" "t1" "t2" none,
      mkEdge "e3" "t2" "t1" none] }

/-- A workflow with only a start node and no edges. -/
def wfStartOnly : Workflow :=
  { name := "start-only", nodes := [startNode "s"], edges := [] }

/-- A workflow without any start node. -/
def wfNoStart : Workflow :=
  { name := "no-start", nodes := [endNode "e"], edges := [] }

/-- An empty workflow (also without a start node). -/
def wfEmpty : Workflow := { name := "empty", nodes := [], edges := [] }

/-- A transform whose target is the state field name "variables",
followed by a transform needing substitution. -/
def wfShadowVariables : Workflow :=
  { name := "shadow-variables",
    nodes := [startNode "s", setNode "t1" "variables" "boom",
      { id := "t2", type := "transform",
        data := [("operation", Val.vstr "template"), ("template", Val.vstr "x"),
          ("target", Val.vstr "r")] }],
    edges := [mkEdge "e1" "s" "t1" none, mkEdge "e2" "t1" "t2" none] }

/-- An execution state fixture with the given variables dict. -/
def stateWithVars (vars : PyDict) : PyDict :=
  [("inputs", Val.vdict []), ("messages", Val.vlist []), ("variables", Val.vdict vars)]

theorem takeWhile_append_no_brace {cs tl : List Char} (h : ∀ c ∈ cs, c ≠ '\x7d') :
    (cs ++ '\x7d' :: tl).takeWhile (fun c => c != '\x7d') = cs := by
  induction cs with
  | nil => simp [List.takeWhile]
  | cons a rest ih =>
    have ha : a ≠ '\x7d' := h a (List.mem_cons_self _ _)
    simp only [List.cons_append, List.takeWhile_cons]
    rw [if_pos (by simpa using ha)]
    rw [ih (fun c hc => h c (List.mem_cons_of_mem _ hc))]

theorem dropWhile_append_no_brace {cs tl : List Char} (h : ∀ c ∈ cs, c ≠ '\x7d') :
    (cs ++ '\x7d' :: tl).dropWhile (fun c => c != '\x7d') = '\x7d' :: tl := by
  induction cs with
  | nil => simp [List.dropWhile]
  | cons a rest ih =>
    have ha : a ≠ '\x7d' := h a (List.mem_cons_self _ _)
    simp only [List.cons_append, List.dropWhile_cons]
    rw [if_pos (by simpa using ha)]
    exact ih (fun c hc => h c (List.mem_cons_of_mem _ hc))

theorem dropWhile_eq_self_of_all_false {α : Type} {p : α → Bool} {cs : List α}
    (h : ∀ c ∈ cs, p c = false) : cs.dropWhile p = cs := by
  cases cs with
  | nil => rfl
  | cons a rest =>
    simp only [List.dropWhile_cons]
    rw [h a (List.mem_cons_self _ _)]
    simp

theorem pyStripChars_eq_self {cs : List Char} (h : ∀ c ∈ cs, c.isWhitespace = false) :
    pyStripChars cs = cs := by
  unfold pyStripChars
  rw [dropWhile_eq_self_of_all_false h,
    dropWhile_eq_self_of_all_false (fun c hc => h c (List.mem_reverse.mp hc)),
    List.reverse_reverse]

theorem splitDot_no_dot {cs : List Char} (h : ∀ c ∈ cs, c ≠ '.') : splitDot cs = [cs] := by
  induction cs with
  | nil => rfl
  | cons a rest ih =>
    have ha : a ≠ '.' := h a (List.mem_cons_self _ _)
    simp only [splitDot, if_neg ha]
    rw [ih (fun c hc => h c (List.mem_cons_of_mem _ hc))]

theorem substAuxF_single (av : PyDict) (fuel : Nat) (ks : List Char) (hne : ks ≠ [])
    (hnb : ∀ c ∈ ks, c ≠ '\x7d') :
    substAuxF av (fuel + 1) ('\x7b' :: '\x7b' :: (ks ++ ['\x7d', '\x7d'])) =
      resolveVar av ks := by
  have htake : (ks ++ ['\x7d', '\x7d']).takeWhile (fun c => c != '\x7d') = ks :=
    takeWhile_append_no_brace hnb
  have hdrop : (ks ++ ['\x7d', '\x7d']).dropWhile (fun c => c != '\x7d') = ['\x7d', '\x7d'] :=
    dropWhile_append_no_brace hnb
  simp only [substAuxF, htake, hdrop]
  rw [if_neg (by simpa using hne)]
  simp [substAuxF]

theorem substAux_single (av : PyDict) (ks : List Char) (hne : ks ≠ [])
    (hnb : ∀ c ∈ ks, c ≠ '\x7d') :
    substAux av ('\x7b' :: '\x7b' :: (ks ++ ['\x7d', '\x7d'])) = resolveVar av ks := by
  unfold substAux
  have hlen : ('\x7b' :: '\x7b' :: (ks ++ ['\x7d', '\x7d'])).length = ks.length + 3 + 1 := by
    simp only [List.length_cons, List.length_append, List.length_nil]
  rw [hlen]
  exact substAuxF_single av (ks.length + 3) ks hne hnb

theorem resolveVar_clean (av : PyDict) (ks : List Char) (hnd : ∀ c ∈ ks, c ≠ '.')
    (hws : ∀ c ∈ ks, c.isWhitespace = false) :
    resolveVar av ks = (pyStr (dictGetD av (List.asString ks) (Val.vstr ""))).data := by
  unfold resolveVar
  rw [pyStripChars_eq_self hws, splitDot_no_dot hnd]
  simp [walkPath]

/-- A placeholder body usable as a single plain key: nonempty, no
closing brace, no dot, no whitespace. -/
def CleanKey (k : String) : Prop :=
  k.data ≠ [] ∧ ∀ c ∈ k.data, c ≠ '\x7d' ∧ c ≠ '.' ∧ c.isWhitespace = false

instance (k : String) : Decidable (CleanKey k) := by
  unfold CleanKey
  infer_instance

theorem substituteVariables_single (state : PyDict) (ins vars : PyDict) (k : String)
    (hv : dictGet state "variables" = some (Val.vdict vars))
    (hi : dictGet state "inputs" = some (Val.vdict ins))
    (hk : CleanKey k) :
    substituteVariables ("\x7b\x7b" ++ k ++ "\x7d\x7d") state =
      Except.ok (pyStr (dictGetD (dictUpdate ins vars) k (Val.vstr ""))) := by
  have hdata : ("\x7b\x7b" ++ k ++ "\x7d\x7d").data =
      '\x7b' :: '\x7b' :: (k.data ++ ['\x7d', '\x7d']) := by
    rw [String.data_append, String.data_append]
    rfl
  unfold substituteVariables
  rw [dictGetD, dictGetD, hv, hi]
  simp only [Option.getD_some]
  rw [hdata, substAux_single _ _ hk.1 (fun c hc => (hk.2 c hc).1),
    resolveVar_clean _ _ (fun c hc => (hk.2 c hc).2.1) (fun c hc => (hk.2 c hc).2.2)]
  rfl

theorem find?_eq_get_of_first {α : Type} (p : α → Bool) (l : List α) (i : Nat)
    (hi : i < l.length) (hp : p (l.get ⟨i, hi⟩) = true)
    (hmin : ∀ j (hj : j < l.length), j < i → p (l.get ⟨j, hj⟩) = false) :
    l.find? p = some (l.get ⟨i, hi⟩) := by
  induction l generalizing i with
  | nil => cases hi
  | cons a rest ih =>
    cases i with
    | zero =>
      exact List.find?_cons_of_pos _ hp
    | succ n =>
      have ha : p a = false := hmin 0 (by simp) (by omega)
      rw [List.find?_cons_of_neg _ (by simp [ha])]
      have hn : n < rest.length := by simpa using hi
      have hget : (a :: rest).get ⟨n + 1, hi⟩ = rest.get ⟨n, hn⟩ := rfl
      rw [hget] at hp ⊢
      exact ih n hn hp (fun j hj hji =>
        hmin (j + 1) (by simpa using Nat.succ_lt_succ hj) (by omega))

theorem findStartNode_eq_none_of_no_start (w : Workflow)
    (h : ∀ n ∈ w.nodes, n.type ≠ "start") :
    findStartNode (buildNodesMap w.nodes) = none := by
  unfold findStartNode
  rw [List.find?_eq_none.mpr]
  · rfl
  · intro p hp hcontra
    exact h p.2 (mem_buildNodesMap _ _ hp) (by simpa using hcontra)

theorem executeBody_of_no_start (o : Oracle) (w : Workflow) (inputs : PyDict)
    (h : findStartNode (buildNodesMap w.nodes) = none) :
    executeBody o w inputs =
      ({ state := [], visited := [], currentNode := none,
         outputs := [("inputs", Val.vdict inputs)], nodeResults := [], trace := [] },
       some "Workflow must have a \x27start\x27 node") := by
  unfold executeBody
  dsimp only
  rw [h]

theorem execute_errors_of_ok (o : Oracle) (w : Workflow) (inputs : PyDict)
    (h : (executeBody o w inputs).2 = none) : (execute o w inputs).errors = [] := by
  unfold execute
  dsimp only
  split
  · rfl
  · rename_i e he
    rw [h] at he
    cases he

theorem execute_fields (o : Oracle) (w : Workflow) (inputs : PyDict) :
    (execute o w inputs).nodeResults = (executeBody o w inputs).1.nodeResults ∧
    (execute o w inputs).currentNode = (executeBody o w inputs).1.currentNode := by
  unfold execute
  dsimp only
  split <;> exact ⟨rfl, rfl⟩

/-- C1: for every workflow and every input a run performs at most 100
node dispatches (the hard cap), and a decision node is exempt from the
visited-set cycle guard: the concrete workflow whose decision node
branches back to itself via "yes"/"no" edges is dispatched again and
again up to the cap (the start dispatch plus 99 decision dispatches fill
all 100 iterations) without the guard ending the run early, and the run
still completes. -/
theorem decision_loop_runs_to_cap :
    (∀ (o : Oracle) (w : Workflow) (inputs : PyDict),
      (execute o w inputs).trace.length ≤ 100) ∧
    (execute trivialOracle wfDecisionLoop []).trace.length = 100 ∧
    List.count "d" (execute trivialOracle wfDecisionLoop []).trace = 99 ∧
    (execute trivialOracle wfDecisionLoop []).status = ExecutionStatus.completed ∧
    (execute trivialOracle wfDecisionLoop []).errors = [] ∧
    decSelfNode.type = "decision" ∧
    (∀ e ∈ wfDecisionLoop.edges, e.source = "d" → e.target = "d") := by
  refine ⟨?_, by decide, by decide, rfl, rfl, rfl, by decide⟩
  intro o w inputs
  rw [execute_trace_eq]
  exact executeBody_trace_bound o w inputs

/-- C2: `execute` never raises to its caller: the whole body is guarded,
every run ends with `completed_at` stamped, a clean exit is Completed
with no errors, and any modelled exception yields Failed with the
message recorded in the errors list. -/
theorem execute_never_raises (o : Oracle) (w : Workflow) (inputs : PyDict) :
    (execute o w inputs).completedAt = true ∧
    (((execute o w inputs).status = ExecutionStatus.completed ∧
      (execute o w inputs).errors = []) ∨
     ((execute o w inputs).status = ExecutionStatus.failed ∧
      (execute o w inputs).errors ≠ [])) ∧
    (∀ e, (executeBody o w inputs).2 = some e →
      (execute o w inputs).status = ExecutionStatus.failed ∧
      e ∈ (execute o w inputs).errors) := by
  refine ⟨execute_completedAt o w inputs, ?_, ?_⟩
  · cases h : (executeBody o w inputs).2 with
    | none =>
      exact Or.inl ⟨execute_status_of_ok o w inputs h, execute_errors_of_ok o w inputs h⟩
    | some e =>
      rcases execute_status_of_error o w inputs e h with ⟨hs, he⟩
      refine Or.inr ⟨hs, ?_⟩
      rw [he]
      simp
  · intro e he
    rcases execute_status_of_error o w inputs e he with ⟨hs, herr⟩
    refine ⟨hs, ?_⟩
    rw [herr]
    exact List.mem_singleton.mpr rfl

/-- C2 witness: on the empty workflow the body raises the missing-start
error, and `execute` returns Failed with that message recorded. -/
theorem execute_never_raises_witness :
    (executeBody trivialOracle wfEmpty []).2 = some "Workflow must have a \x27start\x27 node" ∧
    ((execute trivialOracle wfEmpty []).status = ExecutionStatus.failed ∧
     "Workflow must have a \x27start\x27 node" ∈ (execute trivialOracle wfEmpty []).errors) :=
  ⟨rfl, (execute_never_raises trivialOracle wfEmpty []).2.2 _ rfl⟩

/-- C3: a workflow with no node of type start fails before any dispatch:
status Failed, a recorded error, and no node results or dispatches at
all. -/
theorem no_start_fails_without_dispatch (o : Oracle) (w : Workflow) (inputs : PyDict)
    (h : ∀ n ∈ w.nodes, n.type ≠ "start") :
    (execute o w inputs).status = ExecutionStatus.failed ∧
    (execute o w inputs).errors ≠ [] ∧
    (execute o w inputs).nodeResults = [] ∧
    (execute o w inputs).trace = [] := by
  have hb := executeBody_of_no_start o w inputs (findStartNode_eq_none_of_no_start w h)
  have h2 : (executeBody o w inputs).2 = some "Workflow must have a \x27start\x27 node" := by
    rw [hb]
  rcases execute_status_of_error o w inputs _ h2 with ⟨hs, herr⟩
  refine ⟨hs, ?_, ?_, ?_⟩
  · rw [herr]
    simp
  · rw [(execute_fields o w inputs).1, hb]
  · rw [execute_trace_eq, hb]

/-- C3 witness: the end-only workflow has no start node and fails with
nothing dispatched. -/
theorem no_start_fails_without_dispatch_witness :
    (∀ n ∈ wfNoStart.nodes, n.type ≠ "start") ∧
    ((execute trivialOracle wfNoStart []).status = ExecutionStatus.failed ∧
     (execute trivialOracle wfNoStart []).errors ≠ [] ∧
     (execute trivialOracle wfNoStart []).nodeResults = [] ∧
     (execute trivialOracle wfNoStart []).trace = []) :=
  ⟨by decide, no_start_fails_without_dispatch trivialOracle wfNoStart [] (by decide)⟩

/-- C4: a run whose traversal loop exits without having dispatched an
end-type node and without a modelled exception (no outgoing edge, cycle
guard, or the 100-iteration cap) is Completed, not Failed. -/
theorem loop_exit_without_end_completed (o : Oracle) (w : Workflow) (inputs : PyDict)
    (_hnoend : ∀ id ∈ (executeBody o w inputs).1.trace,
      ∀ p ∈ buildNodesMap w.nodes, p.1 = id → p.2.type ≠ "end")
    (hnoerr : (executeBody o w inputs).2 = none) :
    (execute o w inputs).status = ExecutionStatus.completed ∧
    (execute o w inputs).status ≠ ExecutionStatus.failed := by
  have h := execute_status_of_ok o w inputs hnoerr
  refine ⟨h, ?_⟩
  rw [h]
  decide

/-- C4 witness: the start-only workflow runs out of edges without an end
node and without error, and is Completed. -/
theorem loop_exit_without_end_completed_witness :
    (∀ id ∈ (executeBody trivialOracle wfStartOnly []).1.trace,
      ∀ p ∈ buildNodesMap wfStartOnly.nodes, p.1 = id → p.2.type ≠ "end") ∧
    (executeBody trivialOracle wfStartOnly []).2 = none ∧
    ((execute trivialOracle wfStartOnly []).status = ExecutionStatus.completed ∧
     (execute trivialOracle wfStartOnly []).status ≠ ExecutionStatus.failed) :=
  ⟨by decide, rfl,
    loop_exit_without_end_completed trivialOracle wfStartOnly [] (by decide) rfl⟩

/-- C5 counterexample: the claim that a dangling edge (source and target
referencing unknown node ids) makes validation fail the run with an
error before any node executes is false: on this concrete workflow with
such an edge the run executes both its nodes and completes with no
error at all. -/
theorem dangling_edge_not_prevalidated_cex :
    (∃ e ∈ wfDanglingUnreached.edges,
      dictGet (buildNodesMap wfDanglingUnreached.nodes) e.source = none ∧
      dictGet (buildNodesMap wfDanglingUnreached.nodes) e.target = none) ∧
    (execute trivialOracle wfDanglingUnreached []).status = ExecutionStatus.completed ∧
    (execute trivialOracle wfDanglingUnreached []).errors = [] ∧
    (execute trivialOracle wfDanglingUnreached []).trace = ["s", "e"] ∧
    dictKeys (execute trivialOracle wfDanglingUnreached []).nodeResults = ["s", "e"] := by
  refine ⟨?_, rfl, rfl, by decide, by decide⟩
  refine ⟨mkEdge "e2" "ghost" "nowhere" none, by decide, rfl, rfl⟩

/-- C5 amended: dangling edges are not checked before execution; an edge
whose missing target is never chosen leaves the run untouched (nodes
execute and the run completes with no error), while a traversal that
actually reaches a missing node id fails the run mid-run, after the
earlier nodes have already executed. -/
theorem dangling_edge_fails_only_when_reached :
    ((∃ e ∈ wfDanglingSecond.edges,
        dictGet (buildNodesMap wfDanglingSecond.nodes) e.target = none) ∧
     (execute trivialOracle wfDanglingSecond []).status = ExecutionStatus.completed ∧
     (execute trivialOracle wfDanglingSecond []).errors = [] ∧
     dictKeys (execute trivialOracle wfDanglingSecond []).nodeResults = ["s", "e"]) ∧
    (dictGet (buildNodesMap wfDanglingReached.nodes) "missing" = none ∧
     (execute trivialOracle wfDanglingReached []).status = ExecutionStatus.failed ∧
     (execute trivialOracle wfDanglingReached []).errors = ["Node missing not found"] ∧
     (execute trivialOracle wfDanglingReached []).trace = ["s"] ∧
     dictKeys (execute trivialOracle wfDanglingReached []).nodeResults = ["s"]) := by
  refine ⟨⟨?_, rfl, rfl, by decide⟩, rfl, rfl, by decide, by decide, by decide⟩
  exact ⟨mkEdge "e2" "s" "nowhere" none, by decide, rfl⟩

/-- C6: a node whose type is not decision is dispatched at most once in
any run (the cycle guard breaks on revisiting it, as a success exit), so
a loop of transform/tool nodes is cut on the second arrival at its entry
node: in the concrete two-transform cycle every node runs exactly once,
the guard ends the run during the second pass, and the status is
Completed. -/
theorem nondecision_dispatched_at_most_once :
    (∀ (o : Oracle) (w : Workflow) (inputs : PyDict) (id : String) (n : WorkflowNode),
      dictGet (buildNodesMap w.nodes) id = some n → n.type ≠ "decision" →
      List.count id (execute o w inputs).trace ≤ 1) ∧
    ((execute trivialOracle wfTransformLoop []).trace = ["s", "t1", "t2"] ∧
     (execute trivialOracle wfTransformLoop []).status = ExecutionStatus.completed ∧
     (execute trivialOracle wfTransformLoop []).errors = [] ∧
     (∃ e ∈ wfTransformLoop.edges, e.source = "t1" ∧ e.target = "t2") ∧
     (∃ e ∈ wfTransformLoop.edges, e.source = "t2" ∧ e.target = "t1")) := by
  constructor
  · intro o w inputs id n hget hnd
    rw [execute_trace_eq]
    exact (executeBody_traceInv o w inputs).2 id n hget hnd
  · exact ⟨by decide, rfl, rfl, by decide, by decide⟩

/-- C6 witness: the looped transform node of the concrete cycle is
non-decision and is dispatched at most once. -/
theorem nondecision_dispatched_at_most_once_witness :
    dictGet (buildNodesMap wfTransformLoop.nodes) "t1" = some (setNode "t1" "a" "1") ∧
    (setNode "t1" "a" "1").type ≠ "decision" ∧
    List.count "t1" (execute trivialOracle wfTransformLoop []).trace ≤ 1 :=
  ⟨rfl, by decide,
    nondecision_dispatched_at_most_once.1 trivialOracle wfTransformLoop [] "t1"
      (setNode "t1" "a" "1") rfl (by decide)⟩

/-- C7: template substitution replaces each placeholder independently;
the lookup dict merges `inputs` and `variables` with `variables`
overriding on collision; dot-paths walk nested dicts; and a dead-end
lookup (missing key, or a non-dict met mid-path) yields the empty string
instead of raising.  In particular `\x7b\x7ba.b\x7d\x7d` resolves to "x"
against variables `\x7ba: \x7bb: "x"\x7d\x7d` and to "" against
`\x7ba: "x"\x7d`. -/
theorem substitution_layered_lookup :
    (∀ (state ins vars : PyDict) (k : String) (v : Val),
      dictGet state "variables" = some (Val.vdict vars) →
      dictGet state "inputs" = some (Val.vdict ins) →
      (dictKeys vars).Nodup → CleanKey k →
      dictGet vars k = some v →
      substituteVariables ("\x7b\x7b" ++ k ++ "\x7d\x7d") state = Except.ok (pyStr v)) ∧
    (∀ (state ins vars : PyDict) (k : String) (v : Val),
      dictGet state "variables" = some (Val.vdict vars) →
      dictGet state "inputs" = some (Val.vdict ins) →
      CleanKey k →
      dictGet vars k = none → dictGet ins k = some v →
      substituteVariables ("\x7b\x7b" ++ k ++ "\x7d\x7d") state = Except.ok (pyStr v)) ∧
    (∀ (state ins vars : PyDict) (k : String),
      dictGet state "variables" = some (Val.vdict vars) →
      dictGet state "inputs" = some (Val.vdict ins) →
      CleanKey k →
      dictGet vars k = none → dictGet ins k = none →
      substituteVariables ("\x7b\x7b" ++ k ++ "\x7d\x7d") state = Except.ok "") ∧
    substituteVariables "\x7b\x7ba.b\x7d\x7d"
      (stateWithVars [("a", Val.vdict [("b", Val.vstr "x")])]) = Except.ok "x" ∧
    substituteVariables "\x7b\x7ba.b\x7d\x7d"
      (stateWithVars [("a", Val.vstr "x")]) = Except.ok "" ∧
    substituteVariables "A\x7b\x7bp\x7d\x7dB\x7b\x7bq\x7d\x7dC"
      [("inputs", Val.vdict [("p", Val.vstr "1"), ("q", Val.vstr "hidden")]),
       ("variables", Val.vdict [("q", Val.vstr "2")])] = Except.ok "A1B2C" := by
  refine ⟨?_, ?_, ?_, rfl, rfl, rfl⟩
  · intro state ins vars k v hv hi hnd hk hget
    rw [substituteVariables_single state ins vars k hv hi hk, dictGetD,
      dictGet_dictUpdate_mem ins vars k v hnd hget]
    rfl
  · intro state ins vars k v hv hi hk hnone hget
    rw [substituteVariables_single state ins vars k hv hi hk, dictGetD,
      dictGet_dictUpdate_not_mem ins vars k (not_mem_dictKeys_of_dictGet_none vars k hnone),
      hget]
    rfl
  · intro state ins vars k hv hi hk hnone1 hnone2
    rw [substituteVariables_single state ins vars k hv hi hk, dictGetD,
      dictGet_dictUpdate_not_mem ins vars k (not_mem_dictKeys_of_dictGet_none vars k hnone1),
      hnone2]
    rfl

/-- C7 witness: the three layered-lookup clauses applied at concrete
states: an overridden key, an inputs-only key, and a missing key. -/
theorem substitution_layered_lookup_witness :
    substituteVariables "\x7b\x7bk\x7d\x7d" (stateWithVars [("k", Val.vstr "fromvars")]) =
      Except.ok "fromvars" ∧
    substituteVariables "\x7b\x7bk\x7d\x7d"
      [("inputs", Val.vdict [("k", Val.vstr "fromin")]), ("variables", Val.vdict [])] =
      Except.ok "fromin" ∧
    substituteVariables "\x7b\x7bk\x7d\x7d" (stateWithVars []) = Except.ok "" :=
  ⟨substitution_layered_lookup.1 _ [] [("k", Val.vstr "fromvars")] "k" (Val.vstr "fromvars")
      rfl rfl (by decide) (by decide) rfl,
   substitution_layered_lookup.2.1 _ [("k", Val.vstr "fromin")] [] "k" (Val.vstr "fromin")
      rfl rfl (by decide) rfl rfl,
   substitution_layered_lookup.2.2.1 _ [] [] "k" rfl rfl (by decide) rfl rfl⟩

/-- C8: syntactic condition evaluation recognizes the operators in the
fixed priority order `==`, `!=`, `in`, `>`, `<`, with single-variable
truthiness as the fallback; numeric operands go through float parsing
and a parse failure is recovered to the branch label "default" with the
evaluation error recorded in the node output.  `count > 3` yields "yes"
under count "5", "no" under count "2", and "default" plus an error under
count "abc"; a condition containing both `==` and `>` is treated as an
equality (so the unparsable right side is never sent to float). -/
theorem syntactic_condition_evaluation :
    executeDecisionNode trivialOracle [("condition", Val.vstr "count > 3")]
        (stateWithVars [("count", Val.vstr "5")]) =
      (Val.vdict [("decision", Val.vstr "yes"), ("condition", Val.vstr "count > 3")],
       some "yes") ∧
    executeDecisionNode trivialOracle [("condition", Val.vstr "count > 3")]
        (stateWithVars [("count", Val.vstr "2")]) =
      (Val.vdict [("decision", Val.vstr "no"), ("condition", Val.vstr "count > 3")],
       some "no") ∧
    ((executeDecisionNode trivialOracle [("condition", Val.vstr "count > 3")]
        (stateWithVars [("count", Val.vstr "abc")])).2 = some "default" ∧
     (match (executeDecisionNode trivialOracle [("condition", Val.vstr "count > 3")]
        (stateWithVars [("count", Val.vstr "abc")])).1 with
      | Val.vdict d => (dictGet d "error").isSome
      | _ => false) = true) ∧
    (executeDecisionNode trivialOracle [("condition", Val.vstr "v == 3 > 2")]
        (stateWithVars [("v", Val.vstr "3 > 2")])).2 = some "yes" ∧
    (executeDecisionNode trivialOracle [("condition", Val.vstr "v == 3 > 2")]
        (stateWithVars [("v", Val.vstr "9")])).2 = some "no" ∧
    (executeDecisionNode trivialOracle [("condition", Val.vstr "a != b")]
        (stateWithVars [("a", Val.vstr "b")])).2 = some "no" ∧
    (executeDecisionNode trivialOracle [("condition", Val.vstr "err in msg")]
        (stateWithVars [("msg", Val.vstr "no errors here")])).2 = some "yes" ∧
    (executeDecisionNode trivialOracle [("condition", Val.vstr "count < 3")]
        (stateWithVars [("count", Val.vstr "2")])).2 = some "yes" ∧
    (executeDecisionNode trivialOracle [("condition", Val.vstr "flag")]
        (stateWithVars [("flag", Val.vstr "x")])).2 = some "yes" ∧
    (executeDecisionNode trivialOracle [("condition", Val.vstr "flag")]
        (stateWithVars [])).2 = some "no" :=
  ⟨rfl, rfl, ⟨rfl, rfl⟩, rfl, rfl, rfl, rfl, rfl, rfl, rfl⟩

theorem isEmpty_false_of_ne {l : String} (h : l ≠ "") : l.isEmpty = false := by
  rw [Bool.eq_false_iff]
  intro hh
  exact h ((String.isEmpty_iff l).mp hh)

/-- C9: next-node selection after a non-end node: with a (non-empty)
branch label, the first outgoing edge whose truthy label matches it
case-insensitively; failing that, the first edge labelled "default";
failing that, the first declared edge.  With no branch label the first
declared edge is chosen directly (the label-match and "default" scans
only run when a truthy label is present), and with no outgoing edge at
all the next node is none, which ends the loop. -/
theorem next_node_selection_order :
    (∀ label, findNextNode [] label = none) ∧
    (∀ (edges : List WorkflowEdge) (l : String) (i : Nat) (hi : i < edges.length),
      l ≠ "" → edgeLabelMatches l (edges.get ⟨i, hi⟩) = true →
      (∀ j (hj : j < edges.length), j < i → edgeLabelMatches l (edges.get ⟨j, hj⟩) = false) →
      findNextNode edges (some l) = some (edges.get ⟨i, hi⟩).target) ∧
    (∀ (edges : List WorkflowEdge) (l : String) (i : Nat) (hi : i < edges.length),
      l ≠ "" → (∀ e ∈ edges, edgeLabelMatches l e = false) →
      edgeLabelMatches "default" (edges.get ⟨i, hi⟩) = true →
      (∀ j (hj : j < edges.length), j < i →
        edgeLabelMatches "default" (edges.get ⟨j, hj⟩) = false) →
      findNextNode edges (some l) = some (edges.get ⟨i, hi⟩).target) ∧
    (∀ (e0 : WorkflowEdge) (rest : List WorkflowEdge) (l : String),
      l ≠ "" → (∀ e ∈ e0 :: rest, edgeLabelMatches l e = false) →
      (∀ e ∈ e0 :: rest, edgeLabelMatches "default" e = false) →
      findNextNode (e0 :: rest) (some l) = some e0.target) ∧
    (∀ (e0 : WorkflowEdge) (rest : List WorkflowEdge),
      findNextNode (e0 :: rest) none = some e0.target) := by
  refine ⟨?_, ?_, ?_, ?_, ?_⟩
  · intro label
    cases label <;> rfl
  · intro edges l i hi hl hmatch hfirst
    have hfind : edges.find? (edgeLabelMatches l) = some (edges.get ⟨i, hi⟩) :=
      find?_eq_get_of_first _ _ i hi hmatch hfirst
    cases edges with
    | nil => cases hi
    | cons e0 rest =>
      simp [findNextNode, isEmpty_false_of_ne hl, hfind]
  · intro edges l i hi hl hnomatch hdef hfirst
    have hnone : edges.find? (edgeLabelMatches l) = none :=
      List.find?_eq_none.mpr (fun e he => by rw [hnomatch e he]; simp)
    have hfind : edges.find? (edgeLabelMatches "default") = some (edges.get ⟨i, hi⟩) :=
      find?_eq_get_of_first _ _ i hi hdef hfirst
    cases edges with
    | nil => cases hi
    | cons e0 rest =>
      simp [findNextNode, isEmpty_false_of_ne hl, hnone, hfind]
  · intro e0 rest l hl hnomatch hnodef
    have hnone1 : (e0 :: rest).find? (edgeLabelMatches l) = none :=
      List.find?_eq_none.mpr (fun e he => by rw [hnomatch e he]; simp)
    have hnone2 : (e0 :: rest).find? (edgeLabelMatches "default") = none :=
      List.find?_eq_none.mpr (fun e he => by rw [hnodef e he]; simp)
    simp [findNextNode, isEmpty_false_of_ne hl, hnone1, hnone2]
  · intro e0 rest
    rfl

/-- C9 witness: the selection clauses applied to concrete edge lists: a
case-insensitive match on the second edge, the "default" fallback, the
first-edge fallback, and the no-label case. -/
theorem next_node_selection_order_witness :
    findNextNode [mkEdge "a" "x" "A" (some "x"), mkEdge "b" "x" "B" (some "YES")]
      (some "yes") = some "B" ∧
    findNextNode [mkEdge "a" "x" "A" (some "x"), mkEdge "b" "x" "B" (some "default")]
      (some "yes") = some "B" ∧
    findNextNode [mkEdge "a" "x" "A" (some "x"), mkEdge "b" "x" "B" (some "z")]
      (some "yes") = some "A" ∧
    findNextNode [mkEdge "a" "x" "A" (some "x"), mkEdge "b" "x" "B" (some "default")]
      none = some "A" ∧
    findNextNode [] (some "yes") = none := by
  refine ⟨?_, ?_, ?_, ?_, ?_⟩
  · exact next_node_selection_order.2.1
      [mkEdge "a" "x" "A" (some "x"), mkEdge "b" "x" "B" (some "YES")] "yes" 1
      (by decide) (by decide) (by decide)
      (by intro j hj hji
          have hj0 : j = 0 := by omega
          subst hj0
          exact (by decide :
            edgeLabelMatches "yes" (mkEdge "a" "x" "A" (some "x")) = false))
  · exact next_node_selection_order.2.2.1
      [mkEdge "a" "x" "A" (some "x"), mkEdge "b" "x" "B" (some "default")] "yes" 1
      (by decide) (by decide) (by decide) (by decide)
      (by intro j hj hji
          have hj0 : j = 0 := by omega
          subst hj0
          exact (by decide :
            edgeLabelMatches "default" (mkEdge "a" "x" "A" (some "x")) = false))
  · exact next_node_selection_order.2.2.2.1
      (mkEdge "a" "x" "A" (some "x")) [mkEdge "b" "x" "B" (some "z")] "yes"
      (by decide) (by decide) (by decide)
  · exact next_node_selection_order.2.2.2.2
      (mkEdge "a" "x" "A" (some "x")) [mkEdge "b" "x" "B" (some "default")]
  · exact next_node_selection_order.1 (some "yes")

/-- C10: a mapping-typed node output is merged into the top level of the
execution state as well as into the variables dict, so a patch key named
"inputs", "variables" or "messages" overwrites that state field; the
invocation inputs are likewise spread into the top level of the initial
state, shadowing the seeded fields.  Concretely, a transform whose
target is "variables" replaces the variables dict with a string, after
which the next substitution fails inside its node (recorded as an
"error" output) and the merge of that output fails the run; and an input
named "inputs" is what the start node returns. -/
theorem output_patch_overwrites_state_fields :
    (∀ (state vars patch : PyDict) (key : String) (v : Val),
      dictGet state "variables" = some (Val.vdict vars) →
      (dictKeys patch).Nodup →
      dictGet patch key = some v →
      ∃ st, mergeOutput state (Val.vdict patch) = Except.ok st ∧
        dictGet st key = some v) ∧
    (∀ (inputs : PyDict) (key : String) (v : Val),
      (dictKeys inputs).Nodup → dictGet inputs key = some v →
      dictGet (initState inputs) key = some v) ∧
    ((execute trivialOracle wfShadowVariables []).trace = ["s", "t1", "t2"] ∧
     (match dictGet (execute trivialOracle wfShadowVariables []).nodeResults "t2" with
      | some (Val.vdict d) => (dictGet d "error").isSome
      | _ => false) = true ∧
     (execute trivialOracle wfShadowVariables []).status = ExecutionStatus.failed ∧
     (execute trivialOracle wfShadowVariables []).errors ≠ []) ∧
    (match dictGet (execute trivialOracle wfStartOnly
        [("inputs", Val.vstr "z")]).nodeResults "s" with
      | some (Val.vstr s) => s
      | _ => "") = "z" := by
  refine ⟨?_, ?_, ⟨by decide, rfl, rfl, by decide⟩, rfl⟩
  · intro state vars patch key v hv hnd hget
    refine ⟨dictUpdate (dictInsert state "variables"
      (Val.vdict (dictUpdate vars patch))) patch, ?_, ?_⟩
    · simp only [mergeOutput, hv]
    · exact dictGet_dictUpdate_mem _ patch key v hnd hget
  · intro inputs key v hnd hget
    exact dictGet_dictUpdate_mem _ inputs key v hnd hget

/-- C10 witness: the merge clause applied at a concrete state and patch
whose key is "variables", and the initial-state clause at a concrete
input named "variables". -/
theorem output_patch_overwrites_state_fields_witness :
    (∃ st, mergeOutput (stateWithVars []) (Val.vdict [("variables", Val.vstr "boom")]) =
        Except.ok st ∧ dictGet st "variables" = some (Val.vstr "boom")) ∧
    dictGet (initState [("variables", Val.vstr "x")]) "variables" =
      some (Val.vstr "x") :=
  ⟨output_patch_overwrites_state_fields.1 (stateWithVars []) []
      [("variables", Val.vstr "boom")] "variables" (Val.vstr "boom") rfl (by decide) rfl,
   output_patch_overwrites_state_fields.2.1 [("variables", Val.vstr "x")] "variables"
      (Val.vstr "x") (by decide) rfl⟩
